import Mathlib

/-
Verification of the nw-watch collection engine against its specification.

The Python sources are shallowly embedded as Lean definitions:
  * `src/shared/filters.py`   -> pySplitlines, apply_line_filters,
    check_output_filtered, truncate_output, process_output
  * `src/shared/db.py`        -> Run, Database, insert_run, cleanup_old_runs,
    get_latest_runs
  * `src/collector/main.py`   -> ensure_connected, execute_command,
    collect_commands, update_current_db, initialize_command_schedules
  * `src/src/nw_watch/shared/control_state.py` -> normalize_control_state,
    read_control_state

Machine details the claims do not depend on are modelled as follows: SQLite
AUTOINCREMENT ids are an explicit next_id counter, the devices/commands
tables are inlined by name (names are UNIQUE), wall-clock times and float
durations are rationals, and the newline is the \x0a character only.
String primitives are implemented over the character list of the string so
that every definition evaluates inside the kernel.
-/

namespace NwWatch

/-! ## Embedding of src/shared/filters.py -/

/-- The newline character. -/
def nlChar : Char := Char.ofNat 10

/-- Split a character list at every newline, Python `str.split` on one
separator: `n` separators give `n+1` fragments. -/
def splitNl : List Char → List (List Char)
  | [] => [[]]
  | c :: rest =>
      let r := splitNl rest
      if c == nlChar then [] :: r
      else (c :: r.headD []) :: r.tail

/-- Python `str.splitlines()` restricted to \x0a newlines: the empty fragment
after a trailing newline is not a line, and the empty string has no lines. -/
def pySplitlines (s : String) : List String :=
  let parts := (splitNl s.data).map String.mk
  if parts.getLast? = some ("") then parts.dropLast else parts

/-- Does `hay` start with `needle`? -/
def startsWithChars : List Char → List Char → Bool
  | [], _ => true
  | _ :: _, [] => false
  | a :: as, b :: bs => a == b && startsWithChars as bs

/-- Substring containment on character lists. -/
def containsChars : List Char → List Char → Bool
  | n, [] => n.isEmpty
  | n, c :: rest => startsWithChars n (c :: rest) || containsChars n rest

/-- Python `needle in hay` for strings. -/
def pyStrIn (needle hay : String) : Bool :=
  containsChars needle.data hay.data

/-- Python `'\x0a'.join(fragments)`. -/
def joinNl (fragments : List String) : String :=
  String.mk (go (fragments.map String.data)) where
  go : List (List Char) → List Char
    | [] => []
    | [l] => l
    | l :: ls => l ++ nlChar :: go ls

/-- `apply_line_filters` from src/shared/filters.py. -/
def apply_line_filters (text : String) (exclusions : List String) : String :=
  if exclusions.isEmpty then text
  else
    let lines := pySplitlines text
    let filtered_lines :=
      lines.filter (fun line => !(exclusions.any (fun excl => pyStrIn excl line)))
    joinNl filtered_lines

/-- `check_output_filtered` from src/shared/filters.py. -/
def check_output_filtered (text : String) (output_exclusions : List String) : Bool :=
  if output_exclusions.isEmpty then false
  else output_exclusions.any (fun excl => pyStrIn excl text)

/-- The notice `truncate_output` appends, with its two interpolated counts. -/
def truncation_notice (max_lines original_count : Nat) : String :=
  String.mk ((("\x0a\x0a...(truncated: showing first ").data ++
    (toString max_lines).data) ++ ((" lines of ").data ++
    (toString original_count).data ++ (")").data))

/-- `truncate_output` from src/shared/filters.py:
returns (truncated_text, is_truncated, original_line_count). -/
def truncate_output (text : String) (max_lines : Nat) : String × Bool × Nat :=
  let lines := pySplitlines text
  let original_count := lines.length
  if original_count ≤ max_lines then (text, false, original_count)
  else
    let truncated_lines := lines.take max_lines
    let truncated_text := joinNl truncated_lines
    (String.mk (truncated_text.data ++ (truncation_notice max_lines original_count).data),
     true, original_count)

/-- `process_output` from src/shared/filters.py:
returns (processed_text, is_filtered, is_truncated, original_line_count).
A `None` exclusion argument is modelled as the empty list, which the Python
truthiness tests treat identically. -/
def process_output (text : String) (line_exclusions : List String)
    (output_exclusions : List String) (max_lines : Nat) :
    String × Bool × Bool × Nat :=
  let text1 := if line_exclusions.isEmpty then text
               else apply_line_filters text line_exclusions
  let is_filtered := check_output_filtered text1 output_exclusions
  let tr := truncate_output text1 max_lines
  (tr.1, is_filtered, tr.2.1, tr.2.2)

/-- The text `process_output` holds after the line-filtering step. -/
def filtered_text (text : String) (line_exclusions : List String) : String :=
  if line_exclusions.isEmpty then text
  else apply_line_filters text line_exclusions

/-! ## Embedding of src/shared/db.py

A row of the `runs` table.  SQLite AUTOINCREMENT ids are modelled by an
explicit `next_id` counter on the database; the `devices` and `commands`
tables are inlined by name, which is faithful because both carry a UNIQUE
constraint and `insert_run` resolves ids through
`get_or_create_device` / `get_or_create_command` before inserting. -/

structure Run where
  id : Nat
  device_name : String
  command_text : String
  ts_epoch : Int
  output_text : String
  ok : Bool
  error_message : Option String
  duration_ms : Option ℚ
  is_filtered : Bool
  is_truncated : Bool
  original_line_count : Nat
  deriving DecidableEq

/-- The mutable state of `Database` from src/shared/db.py: the `runs` table in
id (= insertion) order, the next AUTOINCREMENT id, and the configured
`history_size`. -/
structure Database where
  history_size : Nat
  rows : List Run
  next_id : Nat
  deriving DecidableEq

/-- A freshly created session database (empty `runs` table). -/
def emptyDb (history_size : Nat) : Database :=
  { history_size := history_size, rows := [], next_id := 1 }

/-- The SQL predicate `device_id = ? AND command_id = ?`, by name. -/
def pairPred (device_name command_text : String) (r : Run) : Bool :=
  decide (r.device_name = device_name ∧ r.command_text = command_text)

/-- All runs of one (device, command) pair, in id order. -/
def pairRows (db : Database) (device_name command_text : String) : List Run :=
  db.rows.filter (pairPred device_name command_text)

/-- The SQL sort key `ORDER BY ts_epoch DESC`. -/
def tsDesc (a b : Run) : Prop := b.ts_epoch ≤ a.ts_epoch

instance : DecidableRel tsDesc :=
  fun a b => inferInstanceAs (Decidable (b.ts_epoch ≤ a.ts_epoch))

/-- `Database._cleanup_old_runs` from src/shared/db.py: delete the pair's rows
whose id is not among the `history_size` most recent ids of that pair
(`ORDER BY ts_epoch DESC LIMIT history_size`). -/
def cleanup_old_runs (db : Database) (device_name command_text : String) : Database :=
  let keep :=
    (((pairRows db device_name command_text).insertionSort tsDesc).take
      db.history_size).map Run.id
  { db with
    rows := db.rows.filter
      (fun r => !(pairPred device_name command_text r) || decide (r.id ∈ keep)) }

/-- `Database.insert_run` from src/shared/db.py: append the new row, then
prune that (device, command) pair down to `history_size`. -/
def insert_run (db : Database) (device_name command_text : String) (ts_epoch : Int)
    (output_text : String) (ok : Bool) (error_message : Option String)
    (duration_ms : Option ℚ) (is_filtered is_truncated : Bool)
    (original_line_count : Nat) : Database :=
  let row : Run :=
    { id := db.next_id, device_name := device_name, command_text := command_text,
      ts_epoch := ts_epoch, output_text := output_text, ok := ok,
      error_message := error_message, duration_ms := duration_ms,
      is_filtered := is_filtered, is_truncated := is_truncated,
      original_line_count := original_line_count }
  let db1 : Database :=
    { db with rows := db.rows ++ [row], next_id := db.next_id + 1 }
  cleanup_old_runs db1 device_name command_text

/-- `Database.get_latest_runs` from src/shared/db.py: the pair's rows, minus
filtered ones unless `include_filtered`, ordered `ts_epoch DESC`, `LIMIT`
`limit`. -/
def get_latest_runs (db : Database) (device_name command_text : String)
    (limit : Nat) (include_filtered : Bool) : List Run :=
  let sel := db.rows.filter (fun r =>
    pairPred device_name command_text r && (include_filtered || !r.is_filtered))
  (sel.insertionSort tsDesc).take limit

/-- Arguments of one `insert_run` call. -/
structure InsOp where
  device_name : String
  command_text : String
  ts_epoch : Int
  output_text : String
  ok : Bool
  error_message : Option String
  duration_ms : Option ℚ
  is_filtered : Bool
  is_truncated : Bool
  original_line_count : Nat
  deriving DecidableEq

/-- Perform one recorded `insert_run` call. -/
def applyIns (db : Database) (op : InsOp) : Database :=
  insert_run db op.device_name op.command_text op.ts_epoch op.output_text op.ok
    op.error_message op.duration_ms op.is_filtered op.is_truncated
    op.original_line_count

/-- A whole sequence of `insert_run` calls against a fresh store of retention
size `N`. -/
def runSeq (N : Nat) (ops : List InsOp) : Database :=
  ops.foldl applyIns (emptyDb N)

/-- The last `min (l.length) N` elements of `l`: with ascending timestamps,
the `N` most recent ones. -/
def keepRecent (N : Nat) (l : List Int) : List Int :=
  l.drop (l.length - N)

/-- Does an insert target the (d, c) pair? -/
def opPair (d c : String) (op : InsOp) : Bool :=
  decide (op.device_name = d ∧ op.command_text = c)

/-- The row `insert_run` builds from the call `op` against state `db`. -/
def newRow (db : Database) (op : InsOp) : Run :=
  { id := db.next_id, device_name := op.device_name,
    command_text := op.command_text, ts_epoch := op.ts_epoch,
    output_text := op.output_text, ok := op.ok,
    error_message := op.error_message, duration_ms := op.duration_ms,
    is_filtered := op.is_filtered, is_truncated := op.is_truncated,
    original_line_count := op.original_line_count }

/-- Invariant of the store tracked through a sequence of inserts, for one
(device, command) pair: retention size is `N`, row ids are strictly
increasing and below `next_id`, the pair's rows carry exactly the most
recent `N` of the timestamps `pts` inserted for the pair so far, and none
of the pair's rows is marked filtered. -/
def DbInv (N : Nat) (d c : String) (db : Database) (pts : List Int) : Prop :=
  db.history_size = N ∧
  (db.rows.map Run.id).Pairwise (· < ·) ∧
  (∀ r ∈ db.rows, r.id < db.next_id) ∧
  (pairRows db d c).map Run.ts_epoch = keepRecent N pts ∧
  (∀ r ∈ pairRows db d c, r.is_filtered = false)

/-- A successful unfiltered insert for pair (d, c) at timestamp `ts`: the
retention scenario of the specification. -/
def c1op (ts : Int) : InsOp :=
  { device_name := ("d"), command_text := ("c"), ts_epoch := ts,
    output_text := ("out"), ok := true, error_message := none,
    duration_ms := none, is_filtered := false, is_truncated := false,
    original_line_count := 1 }

/-- Five inserts with increasing timestamps T1..T5 for one pair. -/
def c1ops : List InsOp := [c1op 1, c1op 2, c1op 3, c1op 4, c1op 5]

/-! ## Embedding of Collector._update_current_db (src/collector/main.py)

The publisher copies the session store to `current.sqlite3.tmp`, unlinks
`current.sqlite3` if it exists, renames the temp file over it, and retries
the whole attempt up to 5 times with capped backoff. -/

/-- Where a publish attempt raises, if anywhere: in the copy to the temporary
path, in the unlink of the public path, or in the final rename. -/
inductive PublishFail where
  | atCopy
  | atUnlink
  | atRename
  deriving DecidableEq

/-- Observable state of the data directory: the live session store content
and the contents, when present, of current.sqlite3.tmp and current.sqlite3.
Contents are abstract version numbers. -/
structure SnapFS where
  session : Nat
  tmp : Option Nat
  current : Option Nat
  deriving DecidableEq

/-- One body of the publisher's try block: copy, conditional unlink, rename.
Returns the final state, whether the attempt succeeded, and the observable
intermediate states after each filesystem mutation (the states a concurrent
reader can see).  The `f` oracle says where this attempt raises, if at all;
a failure point whose operation is not executed does not fire. -/
def publishAttempt (fs : SnapFS) (f : Option PublishFail) :
    SnapFS × Bool × List SnapFS :=
  if f = some PublishFail.atCopy then (fs, false, [])
  else
    let fs1 : SnapFS := { fs with tmp := some fs.session }
    match fs1.current with
    | some _ =>
        if f = some PublishFail.atUnlink then (fs1, false, [fs1])
        else
          let fs2 : SnapFS := { fs1 with current := none }
          if f = some PublishFail.atRename then (fs2, false, [fs1, fs2])
          else
            let fs3 : SnapFS := { fs2 with current := some fs.session, tmp := none }
            (fs3, true, [fs1, fs2, fs3])
    | none =>
        if f = some PublishFail.atRename then (fs1, false, [fs1])
        else
          let fs3 : SnapFS := { fs1 with current := some fs.session, tmp := none }
          (fs3, true, [fs1, fs3])

/-- The retry loop of `_update_current_db`: `for attempt in range(5)` with
`delay = 1`, sleeping `min(5, delay)` after a failure (except after the
fifth), then `delay = min(5, delay * 2)`.  `fuel` counts the remaining
iterations (started at 5, so `fuel = 0` inside the body means
`attempt == 4`); `a` is the attempt index.  Returns the final state, the
sleep durations in seconds, the concatenated observable intermediate
states, and the number of attempts made. -/
def update_current_db_go (fails : Nat → Option PublishFail) :
    Nat → Nat → Nat → SnapFS → SnapFS × List Nat × List SnapFS × Nat
  | 0, _, _, fs => (fs, [], [], 0)
  | fuel + 1, a, delay, fs =>
      let r := publishAttempt fs (fails a)
      if r.2.1 then (r.1, [], r.2.2, 1)
      else if fuel = 0 then (r.1, [], r.2.2, 1)
      else
        let s := min 5 delay
        let rec2 := update_current_db_go fails fuel (a + 1) (min 5 (delay * 2)) r.1
        (rec2.1, s :: rec2.2.1, r.2.2 ++ rec2.2.2.1, rec2.2.2.2 + 1)

/-- `Collector._update_current_db` from src/collector/main.py. -/
def update_current_db (fails : Nat → Option PublishFail) (fs : SnapFS) :
    SnapFS × List Nat × List SnapFS × Nat :=
  update_current_db_go fails 5 0 1 fs

/-! ## Embedding of DeviceCollector (src/collector/main.py)

Device-level behaviour is recorded as a trace of events.  The netmiko
session is opaque: a connect oracle gives the outcome of the i-th
`ConnectHandler` call of one execute, and a send oracle the outcome of
`send_command`. -/

inductive DevEvent where
  | lockAcquire
  | lockRelease
  | probe (alive : Bool)
  | connectAttempt (i : Nat)
  | sleep (s : ℚ)
  | send (cmd : String)
  | disconnect
  deriving DecidableEq

/-- Is an event a `ConnectHandler` call? -/
def isConnectAttempt : DevEvent → Bool
  | DevEvent.connectAttempt _ => true
  | _ => false

/-- The duration of a sleep event, if it is one. -/
def sleepDur : DevEvent → Option ℚ
  | DevEvent.sleep s => some s
  | _ => none

/-- The session `_ensure_connected` leaves behind, given its outcome: set on
success, still absent after a raise. -/
def sessionOf : Except (Option String) Unit → Option Unit
  | Except.ok _ => some ()
  | Except.error _ => none

/-- The retry loop of `_ensure_connected`: `for attempt in
range(max_reconnect_attempts)` with `time.sleep(reconnect_backoff_base *
(2 ** attempt))` after every failed attempt except the last, then a raise
carrying the last underlying error (`none` when the loop never ran).
`fuel` counts remaining iterations (started at `maxA`), `a` is the attempt
index. -/
def connect_loop (connect : Nat → Except String Unit) (b : ℚ) (maxA : Nat) :
    Nat → Nat → List DevEvent × Except (Option String) Unit
  | 0, _ => ([], Except.error none)
  | fuel + 1, a =>
      match connect a with
      | Except.ok _ => ([DevEvent.connectAttempt a], Except.ok ())
      | Except.error e =>
          if a < maxA - 1 then
            let r := connect_loop connect b maxA fuel (a + 1)
            (DevEvent.connectAttempt a :: DevEvent.sleep (b * 2 ^ a) :: r.1, r.2)
          else ([DevEvent.connectAttempt a], Except.error (some e))

/-- `DeviceCollector._ensure_connected` from src/collector/main.py: reuse a
live session (the liveness probe is `find_prompt`), otherwise discard any
stale handle and run the reconnect loop.  Returns the events, the outcome,
and the resulting `_connection` field. -/
def ensure_connected (connect : Nat → Except String Unit) (b : ℚ) (maxA : Nat)
    (session : Option Unit) (alive : Bool) :
    List DevEvent × Except (Option String) Unit × Option Unit :=
  match session with
  | some _ =>
      if alive then ([DevEvent.probe true], Except.ok (), some ())
      else
        let r := connect_loop connect b maxA maxA 0
        (DevEvent.probe false :: DevEvent.disconnect :: r.1, r.2, sessionOf r.2)
  | none =>
      let r := connect_loop connect b maxA maxA 0
      (r.1, r.2, sessionOf r.2)

/-- The persistent branch of `DeviceCollector.execute_command`: take the
per-device lock, ensure a connection, send the command, release the lock
(the `with` statement releases it on an exception as well).  A connect
failure re-raises the ensure error; a send failure raises its own error;
the session survives a send failure. -/
def execute_persistent (connect : Nat → Except String Unit)
    (sendR : Except String String) (b : ℚ) (maxA : Nat) (cmd : String)
    (session : Option Unit) (alive : Bool) :
    List DevEvent × Except (Option String) String × Option Unit :=
  let ec := ensure_connected connect b maxA session alive
  match ec.2.1 with
  | Except.error e =>
      (DevEvent.lockAcquire :: ec.1 ++ [DevEvent.lockRelease],
       Except.error e, ec.2.2)
  | Except.ok _ =>
      match sendR with
      | Except.ok out =>
          (DevEvent.lockAcquire :: ec.1 ++ [DevEvent.send cmd, DevEvent.lockRelease],
           Except.ok out, ec.2.2)
      | Except.error e =>
          (DevEvent.lockAcquire :: ec.1 ++ [DevEvent.send cmd, DevEvent.lockRelease],
           Except.error (some e), ec.2.2)

/-- What claim C6 asserts the non-persistent mode equals: the persistent-mode
execution followed by immediately disconnecting and clearing the session. -/
def execute_persistent_then_disconnect (connect : Nat → Except String Unit)
    (sendR : Except String String) (b : ℚ) (maxA : Nat) (cmd : String)
    (session : Option Unit) (alive : Bool) :
    List DevEvent × Except (Option String) String × Option Unit :=
  let r := execute_persistent connect sendR b maxA cmd session alive
  (r.1 ++ [DevEvent.disconnect], r.2.1, none)

/-- The legacy (non-persistent) branch of `DeviceCollector.execute_command`:
one bare `ConnectHandler` call (no lock, no retry loop, no backoff), then
`send_command`, then `disconnect` - which is skipped when `send_command`
raises. -/
def execute_nonpersistent (connectOnce : Except String Unit)
    (sendR : Except String String) (cmd : String) :
    List DevEvent × Except (Option String) String :=
  match connectOnce with
  | Except.error e => ([DevEvent.connectAttempt 0], Except.error (some e))
  | Except.ok _ =>
      match sendR with
      | Except.error e =>
          ([DevEvent.connectAttempt 0, DevEvent.send cmd], Except.error (some e))
      | Except.ok out =>
          ([DevEvent.connectAttempt 0, DevEvent.send cmd, DevEvent.disconnect],
           Except.ok out)

/-- The try/except of `DeviceCollector.execute_command` around one unit of
work: a success is stored through `process_output` as an ok run; any raise
from connection or execution is caught in the unit and stored as a failed
run with `ok = False`, the error message, empty output and zero line count.
Nothing propagates to the caller - the function is total.  (The dispatcher
additionally guards with `asyncio.gather(..., return_exceptions=True)`.) -/
def execute_command (line_exclusions output_exclusions : List String)
    (max_lines : Nat) (device_name command : String) (ts_epoch : Int)
    (duration_ms : ℚ) (outcome : Except String String) (db : Database) :
    Database :=
  match outcome with
  | Except.ok output =>
      let pr := process_output output line_exclusions output_exclusions max_lines
      insert_run db device_name command ts_epoch pr.1 true none
        (some duration_ms) pr.2.1 pr.2.2.1 pr.2.2.2
  | Except.error e =>
      insert_run db device_name command ts_epoch ("") false (some e)
        (some duration_ms) false false 0

/-! ## Embedding of Collector.collect_commands and
Collector._initialize_command_schedules (src/collector/main.py)

The batch dispatcher is modelled as an event trace.  `croniter(s, t)
.get_next()` is an oracle `cronNext : String -> Q -> Q`; croniter's
documented behaviour (the next occurrence strictly after `t`) enters the
theorems as a hypothesis.  `Config.get_command_schedule` is the lookup
`schedules : String -> Option String`. -/

inductive CEvent where
  | dispatch (device command : String)
  | schedUpdate (command : String) (t : ℚ)
  | batchAwait
  | publish
  deriving DecidableEq

/-- Is an event the enqueueing of one (device, command) unit? -/
def isDispatchEv : CEvent → Bool
  | CEvent.dispatch _ _ => true
  | _ => false

/-- Is an event a `command_next_run` write for `cmd`? -/
def isSchedUpdateFor (cmd : String) : CEvent → Bool
  | CEvent.schedUpdate c _ => c == cmd
  | _ => false

/-- Is an event the snapshot publication? -/
def isPublishEv : CEvent → Bool
  | CEvent.publish => true
  | _ => false

/-- A write to the `command_next_run` dict. -/
def setNextRun (m : String → Option ℚ) (cmd : String) (t : ℚ) :
    String → Option ℚ :=
  fun c => if c = cmd then some t else m c

/-- The value `collect_commands` stores into `command_next_run`:
`croniter(schedule, now).get_next()` for a cron command, `now +
interval_seconds` otherwise - both computed from `now`, the wall-clock
time captured at the start of the batch. -/
def next_run_value (cronNext : String → ℚ → ℚ)
    (schedules : String → Option String) (interval now : ℚ) (cmd : String) : ℚ :=
  match schedules cmd with
  | some s => cronNext s now
  | none => now + interval

/-- The inner `for command in self.commands` loop of `collect_commands` for
one device: a due command (`now >= command_next_run.get(command, now)`) is
dispatched to the pool and its `command_next_run` entry is rewritten
immediately, inside the dispatch loop. -/
def device_pass (cronNext : String → ℚ → ℚ)
    (schedules : String → Option String) (interval now : ℚ) (device : String) :
    List String → (String → Option ℚ) → List CEvent × (String → Option ℚ)
  | [], m => ([], m)
  | cmd :: cmds, m =>
      if now ≥ (m cmd).getD now then
        let v := next_run_value cronNext schedules interval now cmd
        let r := device_pass cronNext schedules interval now device cmds
          (setNextRun m cmd v)
        (CEvent.dispatch device cmd :: CEvent.schedUpdate cmd v :: r.1, r.2)
      else
        device_pass cronNext schedules interval now device cmds m

/-- The outer `for device_name, collector in self.device_collectors.items()`
loop of `collect_commands`. -/
def all_devices_pass (cronNext : String → ℚ → ℚ)
    (schedules : String → Option String) (interval now : ℚ) :
    List String → List String → (String → Option ℚ) →
    List CEvent × (String → Option ℚ)
  | [], _, m => ([], m)
  | dev :: devs, cmds, m =>
      let r := device_pass cronNext schedules interval now dev cmds m
      let r2 := all_devices_pass cronNext schedules interval now devs cmds r.2
      (r.1 ++ r2.1, r2.2)

/-- `Collector.collect_commands` from src/collector/main.py: dispatch the due
units (rewriting next-run times at dispatch time), await the whole batch
(`asyncio.gather`), and - only when at least one unit was dispatched -
publish the snapshot once for the whole batch. -/
def collect_commands (cronNext : String → ℚ → ℚ)
    (schedules : String → Option String) (interval now : ℚ)
    (devices commands : List String) (m : String → Option ℚ) :
    List CEvent × (String → Option ℚ) :=
  let r := all_devices_pass cronNext schedules interval now devices commands m
  if 0 < r.1.countP isDispatchEv
  then (r.1 ++ [CEvent.batchAwait, CEvent.publish], r.2)
  else (r.1, r.2)

/-- `Collector._initialize_command_schedules` from src/collector/main.py:
at startup every command with a cron schedule starts at
`croniter(schedule, now).get_next()`, every interval command at `now`. -/
def initialize_command_schedules (cronNext : String → ℚ → ℚ)
    (schedules : String → Option String) (now : ℚ) (commands : List String) :
    (String → Option ℚ) :=
  commands.foldl
    (fun m cmd =>
      match schedules cmd with
      | some s => setNextRun m cmd (cronNext s now)
      | none => setNextRun m cmd now)
    (fun _ => none)

/-- One unit of work of a batch: one device, one command, one outcome. -/
structure WorkUnit where
  device_name : String
  command_text : String
  ts_epoch : Int
  duration_ms : ℚ
  outcome : Except String String

/-- The dispatcher's batch: every unit runs `execute_command` against the
shared store; the batch completes after every unit has succeeded or
failed. -/
def collect_batch (line_ex out_ex : String → List String) (max_lines : Nat)
    (units : List WorkUnit) (db : Database) : Database :=
  units.foldl
    (fun db u =>
      execute_command (line_ex u.command_text) (out_ex u.command_text) max_lines
        u.device_name u.command_text u.ts_epoch u.duration_ms u.outcome db)
    db

/-! ## Embedding of src/src/nw_watch/shared/control_state.py -/

/-- A normalized control state. -/
structure ControlState where
  commands_paused : Bool
  shutdown_requested : Bool
  updated_at : Int
  deriving DecidableEq

/-- `DEFAULT_CONTROL_STATE` from control_state.py. -/
def DEFAULT_CONTROL_STATE : ControlState :=
  { commands_paused := false, shutdown_requested := false, updated_at := 0 }

/-- A parsed control document: the fields the JSON object carries, after
Python's `bool()` / `int(... or 0)` coercions. -/
structure PartialControlState where
  commands_paused : Option Bool
  shutdown_requested : Option Bool
  updated_at : Option Int
  deriving DecidableEq

/-- `normalize_control_state` from control_state.py: missing fields take the
defaults. -/
def normalize_control_state (state : PartialControlState) : ControlState :=
  { commands_paused := state.commands_paused.getD false,
    shutdown_requested := state.shutdown_requested.getD false,
    updated_at := state.updated_at.getD 0 }

/-- The on-disk control file as the engine can find it on one poll. -/
inductive ControlFile where
  | missing
  | corrupt
  | valid (data : PartialControlState)
  deriving DecidableEq

/-- `read_control_state` from control_state.py: a missing file and an
unreadable or unparsable one both yield the default state. -/
def read_control_state : ControlFile → ControlState
  | ControlFile.missing => DEFAULT_CONTROL_STATE
  | ControlFile.corrupt => DEFAULT_CONTROL_STATE
  | ControlFile.valid data => normalize_control_state data

/-- What the engine does in one tick. -/
inductive EngAction where
  | dispatchBatch
  | probe
  | closeSessions
  deriving DecidableEq

/-- Modelled from the spec: the control-loop integration of the control-state
file is not under src/ (src/ holds only `read_control_state` itself, its
webapp callers and its tests; `Collector.run` in src/collector/main.py
predates it).  Per the spec, each tick the engine polls the control state:
`shutdown_requested` makes it close every device session and exit after the
current batch; `commands_paused` makes it skip dispatching a command batch
while reachability probing continues; otherwise it dispatches a batch and
probing continues.  The returned flag says whether the loop continues. -/
def engine_tick (f : ControlFile) : List EngAction × Bool :=
  let st := read_control_state f
  if st.shutdown_requested then ([EngAction.closeSessions], false)
  else if st.commands_paused then ([EngAction.probe], true)
  else ([EngAction.dispatchBatch, EngAction.probe], true)

/-- Modelled from the spec: the engine's control loop over the successive
contents of the control file, one poll per tick, exiting after the first
tick whose state requests shutdown. -/
def engine_run : List ControlFile → List (List EngAction)
  | [] => []
  | f :: fs =>
      let r := engine_tick f
      if r.2 then r.1 :: engine_run fs else [r.1]

/-- C10: for every output text and positive max_lines, if the text after line
filtering has at most max_lines lines then process_output returns it unchanged
with is_truncated = false and original_line_count its line count; otherwise it
returns exactly the first max_lines lines followed by the truncation notice,
with is_truncated = true and original_line_count the pre-truncation
(post-line-filter) line count. -/
theorem C10_process_output_truncation (text : String)
    (line_exclusions output_exclusions : List String) (max_lines : Nat)
    (hpos : 0 < max_lines) :
    ((pySplitlines (filtered_text text line_exclusions)).length ≤ max_lines →
      process_output text line_exclusions output_exclusions max_lines =
        (filtered_text text line_exclusions,
         check_output_filtered (filtered_text text line_exclusions) output_exclusions,
         false,
         (pySplitlines (filtered_text text line_exclusions)).length)) ∧
    (max_lines < (pySplitlines (filtered_text text line_exclusions)).length →
      process_output text line_exclusions output_exclusions max_lines =
        (String.mk ((joinNl ((pySplitlines (filtered_text text line_exclusions)).take
              max_lines)).data ++
            (truncation_notice max_lines
              (pySplitlines (filtered_text text line_exclusions)).length).data),
         check_output_filtered (filtered_text text line_exclusions) output_exclusions,
         true,
         (pySplitlines (filtered_text text line_exclusions)).length)) := by
  constructor
  · intro hle
    simp only [process_output, truncate_output, filtered_text] at *
    rw [if_pos hle]
  · intro hlt
    simp only [process_output, truncate_output, filtered_text] at *
    rw [if_neg (by omega)]

/-- C10 witness: concrete evaluation of both branches of the theorem. -/
theorem C10_process_output_truncation_witness :
    (0 < 2) ∧
    process_output ("a\x0ab") [] [] 2 = (("a\x0ab"), false, false, 2) ∧
    process_output ("a\x0ab\x0ac") [] [] 2 =
      (String.mk (("a\x0ab").data ++ (truncation_notice 2 3).data),
       false, true, 3) := by
  refine ⟨by decide, ?_, ?_⟩
  · have h := (C10_process_output_truncation ("a\x0ab") [] [] 2 (by decide)).1
    rw [h (by decide)]
    rfl
  · have h := (C10_process_output_truncation ("a\x0ab\x0ac") [] [] 2 (by decide)).2
    rw [h (by decide)]
    rfl

/-! ## Lemmas about the Result Store -/

/-- A run older than everything in `l` is inserted at the end of the
descending order. -/
theorem orderedInsert_tsDesc_last (a : Run) (l : List Run)
    (h : ∀ x ∈ l, ¬ tsDesc a x) :
    List.orderedInsert tsDesc a l = l ++ [a] := by
  induction l with
  | nil => simp [List.orderedInsert]
  | cons b t ih =>
      have hb : ¬ tsDesc a b := h b (by simp)
      simp only [List.orderedInsert, if_neg hb, List.cons_append, List.cons.injEq,
        true_and]
      exact ih (fun x hx => h x (List.mem_cons_of_mem b hx))

/-- Sorting a strictly ascending-by-timestamp list in descending timestamp
order reverses it. -/
theorem insertionSort_tsDesc_of_ascending (l : List Run)
    (h : (l.map Run.ts_epoch).Pairwise (· < ·)) :
    l.insertionSort tsDesc = l.reverse := by
  induction l with
  | nil => simp [List.insertionSort]
  | cons a t ih =>
      rw [List.map_cons, List.pairwise_cons] at h
      obtain ⟨ha, ht⟩ := h
      have hts : t.insertionSort tsDesc = t.reverse := ih ht
      have hlast : List.orderedInsert tsDesc a t.reverse = t.reverse ++ [a] := by
        apply orderedInsert_tsDesc_last
        intro x hx
        rw [List.mem_reverse] at hx
        have := ha x.ts_epoch (List.mem_map_of_mem Run.ts_epoch hx)
        simp only [tsDesc, not_le]
        exact this
      simp [List.insertionSort, hts, hlast]

/-- `keepRecent` absorbs one more element: dropping the overflow from the
previous kept suffix extended by the new element yields the kept suffix of
the extended list. -/
theorem keepRecent_snoc (N : Nat) (pts : List Int) (t : Int) :
    (keepRecent N pts ++ [t]).drop ((keepRecent N pts).length + 1 - N) =
      keepRecent N (pts ++ [t]) := by
  unfold keepRecent
  rw [List.drop_append_eq_append_drop, List.drop_append_eq_append_drop,
    List.drop_drop]
  have h1 : pts.length - N + ((pts.drop (pts.length - N)).length + 1 - N) =
      (pts ++ [t]).length - N ∨
      (pts.length ≤ pts.length - N + ((pts.drop (pts.length - N)).length + 1 - N) ∧
       pts.length ≤ (pts ++ [t]).length - N) := by
    simp only [List.length_drop, List.length_append, List.length_cons,
      List.length_nil]
    omega
  have h2 : (pts.drop (pts.length - N)).length + 1 - N -
      (pts.drop (pts.length - N)).length = (pts ++ [t]).length - N - pts.length := by
    simp only [List.length_drop, List.length_append, List.length_cons,
      List.length_nil]
    omega
  rw [h2]
  rcases h1 with h1 | ⟨h1a, h1b⟩
  · rw [h1]
  · rw [List.drop_eq_nil_of_le h1a, List.drop_eq_nil_of_le h1b]

/-- Filtering a strictly-ascending-id list by membership of the id in the ids
of its `k`-drop recovers exactly the `k`-drop. -/
theorem filter_id_mem_drop (l : List Run) (k : Nat) (ids : List Nat)
    (hids : ∀ a, a ∈ ids ↔ a ∈ (l.drop k).map Run.id)
    (hpw : (l.map Run.id).Pairwise (· < ·)) :
    l.filter (fun r => decide (r.id ∈ ids)) = l.drop k := by
  conv_lhs => rw [← List.take_append_drop k l]
  rw [List.filter_append]
  have hsplit : (l.map Run.id).Pairwise (· < ·) →
      ∀ a ∈ (l.take k).map Run.id, ∀ b ∈ (l.drop k).map Run.id, a < b := by
    intro hp
    have : ((l.take k).map Run.id ++ (l.drop k).map Run.id).Pairwise (· < ·) := by
      rw [← List.map_append, List.take_append_drop]
      exact hp
    exact (List.pairwise_append.mp this).2.2
  have h1 : (l.take k).filter (fun r => decide (r.id ∈ ids)) = [] := by
    rw [List.filter_eq_nil_iff]
    intro r hr
    simp only [decide_eq_true_eq]
    intro hmem
    have hlt := hsplit hpw r.id (List.mem_map_of_mem Run.id hr) r.id
      ((hids r.id).mp hmem)
    omega
  have h2 : (l.drop k).filter (fun r => decide (r.id ∈ ids)) = l.drop k := by
    rw [List.filter_eq_self]
    intro r hr
    simp only [decide_eq_true_eq]
    exact (hids r.id).mpr (List.mem_map_of_mem Run.id hr)
  rw [h1, h2, List.nil_append]

/-- `insert_run` (through `applyIns`) keeps a sublist of the appended rows. -/
theorem applyIns_rows_sublist (db : Database) (op : InsOp) :
    (applyIns db op).rows.Sublist (db.rows ++ [newRow db op]) := by
  simp only [applyIns, insert_run, cleanup_old_runs, newRow]
  exact List.filter_sublist _

/-- `insert_run` increments `next_id` by one. -/
theorem applyIns_next_id (db : Database) (op : InsOp) :
    (applyIns db op).next_id = db.next_id + 1 := rfl

/-- `insert_run` preserves the retention size. -/
theorem applyIns_history_size (db : Database) (op : InsOp) :
    (applyIns db op).history_size = db.history_size := rfl

/-- `applyIns` is the cleanup of the appended table. -/
theorem applyIns_eq (db : Database) (op : InsOp) :
    applyIns db op = cleanup_old_runs
      { db with
        rows := db.rows ++ [newRow db op],
        next_id := db.next_id + 1 }
      op.device_name op.command_text := rfl

/-- An insert for this pair leaves as the pair's rows the old rows plus the
new one, minus the overflow past `history_size` oldest ones. -/
theorem insert_run_pair (db : Database) (d c : String) (op : InsOp)
    (hp : op.device_name = d ∧ op.command_text = c)
    (htslt : ∀ r ∈ pairRows db d c, r.ts_epoch < op.ts_epoch)
    (hasc : ((pairRows db d c).map Run.ts_epoch).Pairwise (· < ·))
    (hid : (db.rows.map Run.id).Pairwise (· < ·))
    (hlt : ∀ r ∈ db.rows, r.id < db.next_id) :
    pairRows (applyIns db op) d c =
      (pairRows db d c ++ [newRow db op]).drop
        ((pairRows db d c).length + 1 - db.history_size) := by
  obtain ⟨hpd, hpc⟩ := hp
  have hrow : pairPred d c (newRow db op) = true := by
    simp [pairPred, newRow, hpd, hpc]
  have hP1 : pairRows
      { db with
        rows := db.rows ++ [newRow db op],
        next_id := db.next_id + 1 } d c = pairRows db d c ++ [newRow db op] := by
    simp [pairRows, List.filter_append, hrow]
  have hP1id : ((pairRows db d c ++ [newRow db op]).map Run.id).Pairwise (· < ·) := by
    rw [List.map_append]
    rw [List.pairwise_append]
    refine ⟨List.Pairwise.sublist (List.Sublist.map _ (List.filter_sublist _)) hid,
      by simp, ?_⟩
    intro a ha b hb
    simp only [List.map_cons, List.map_nil, List.mem_singleton] at hb
    subst hb
    obtain ⟨r, hr, rfl⟩ := List.mem_map.mp ha
    have : r ∈ db.rows := List.mem_of_mem_filter hr
    simpa [newRow] using hlt r this
  have hP1ts : ((pairRows db d c ++ [newRow db op]).map Run.ts_epoch).Pairwise
      (· < ·) := by
    rw [List.map_append, List.pairwise_append]
    refine ⟨hasc, by simp, ?_⟩
    intro a ha b hb
    simp only [List.map_cons, List.map_nil, List.mem_singleton] at hb
    subst hb
    obtain ⟨r, hr, rfl⟩ := List.mem_map.mp ha
    simpa [newRow] using htslt r hr
  -- unfold the cleanup on the appended table
  subst hpd hpc
  have hb : ∀ (a b : Bool), (a && (!a || b)) = (b && a) := by decide
  rw [applyIns_eq]
  simp only [cleanup_old_runs, pairRows] at hP1 hP1id hP1ts ⊢
  rw [List.filter_filter]
  simp only [hb]
  rw [← List.filter_filter]
  simp only [hP1]
  simp only [insertionSort_tsDesc_of_ascending _ hP1ts]
  simp only [List.take_reverse]
  have hlen : (List.filter (pairPred op.device_name op.command_text) db.rows ++
      [newRow db op]).length =
      (List.filter (pairPred op.device_name op.command_text) db.rows).length + 1 := by
    simp
  rw [hlen]
  apply filter_id_mem_drop _ _ _ _ hP1id
  intro a
  rw [List.map_reverse, List.mem_reverse]

/-- An insert for a different pair leaves this pair's rows unchanged. -/
theorem insert_run_pair_ne (db : Database) (d c : String) (op : InsOp)
    (hne : ¬(op.device_name = d ∧ op.command_text = c)) :
    pairRows (applyIns db op) d c = pairRows db d c := by
  have hrow : pairPred d c (newRow db op) = false := by
    simp only [pairPred, newRow, decide_eq_false_iff_not]
    exact hne
  show pairRows (cleanup_old_runs
      { db with
        rows := db.rows ++ [newRow db op],
        next_id := db.next_id + 1 } op.device_name op.command_text) d c = _
  simp only [cleanup_old_runs, pairRows]
  rw [List.filter_filter]
  have hcongr : ∀ x ∈ db.rows ++ [newRow db op],
      (pairPred d c x &&
        (!pairPred op.device_name op.command_text x ||
          decide (x.id ∈ ((((db.rows ++ [newRow db op]).filter
            (pairPred op.device_name op.command_text)).insertionSort tsDesc).take
              db.history_size).map Run.id))) = pairPred d c x := by
    intro x hx
    cases hdc : pairPred d c x with
    | false => simp
    | true =>
        have hxop : pairPred op.device_name op.command_text x = false := by
          simp only [pairPred, decide_eq_true_eq] at hdc
          simp only [pairPred, decide_eq_false_iff_not]
          rintro ⟨h1, h2⟩
          exact hne ⟨by rw [← h1, hdc.1], by rw [← h2, hdc.2]⟩
        simp [hxop]
  rw [List.filter_congr hcongr]
  simp [List.filter_append, hrow]

/-- The store invariant is preserved by any sequence of inserts whose
timestamps keep strictly increasing. -/
theorem foldl_applyIns_inv (N : Nat) (d c : String) (rest : List InsOp) :
    ∀ (db : Database) (pts : List Int),
      DbInv N d c db pts →
      pts.Pairwise (· < ·) →
      List.Pairwise (fun a b : InsOp => a.ts_epoch < b.ts_epoch) rest →
      (∀ t ∈ pts, ∀ op ∈ rest, t < op.ts_epoch) →
      (∀ op ∈ rest, op.is_filtered = false) →
      DbInv N d c (rest.foldl applyIns db)
        (pts ++ (rest.filter (opPair d c)).map InsOp.ts_epoch) := by
  induction rest with
  | nil =>
      intro db pts hInv _ _ _ _
      simpa using hInv
  | cons op rest ih =>
      intro db pts hInv hpts hrest hsep hfl
      obtain ⟨hN, hid, hlt, hmap, hfilt⟩ := hInv
      rw [List.pairwise_cons] at hrest
      obtain ⟨hophd, hrest'⟩ := hrest
      have hsub : (applyIns db op).rows.Sublist (db.rows ++ [newRow db op]) :=
        applyIns_rows_sublist db op
      have hid' : ((applyIns db op).rows.map Run.id).Pairwise (· < ·) := by
        apply List.Pairwise.sublist (List.Sublist.map _ hsub)
        rw [List.map_append, List.pairwise_append]
        refine ⟨hid, by simp, ?_⟩
        intro a ha b hb
        simp only [List.map_cons, List.map_nil, List.mem_singleton] at hb
        subst hb
        obtain ⟨r, hr, rfl⟩ := List.mem_map.mp ha
        simpa [newRow] using hlt r hr
      have hlt' : ∀ r ∈ (applyIns db op).rows, r.id < (applyIns db op).next_id := by
        intro r hr
        rw [applyIns_next_id]
        have hmem : r ∈ db.rows ++ [newRow db op] := hsub.subset hr
        rcases List.mem_append.mp hmem with h | h
        · exact Nat.lt_succ_of_lt (hlt r h)
        · simp only [List.mem_singleton] at h
          subst h
          simp [newRow]
      have hfilt' : ∀ r ∈ pairRows (applyIns db op) d c, r.is_filtered = false := by
        intro r hr
        have hsubf := List.Sublist.filter (pairPred d c) hsub
        have hmem : r ∈ (db.rows ++ [newRow db op]).filter (pairPred d c) :=
          hsubf.subset hr
        rw [List.filter_append] at hmem
        rcases List.mem_append.mp hmem with h | h
        · exact hfilt r h
        · have : r ∈ [newRow db op] := List.mem_of_mem_filter h
          simp only [List.mem_singleton] at this
          subst this
          simpa [newRow] using hfl op (by simp)
      have hsize' : (applyIns db op).history_size = N := by
        rw [applyIns_history_size]
        exact hN
      by_cases hp : op.device_name = d ∧ op.command_text = c
      · have hts_lt : ∀ r ∈ pairRows db d c, r.ts_epoch < op.ts_epoch := by
          intro r hr
          have h1 : r.ts_epoch ∈ keepRecent N pts := by
            rw [← hmap]
            exact List.mem_map_of_mem Run.ts_epoch hr
          simp only [keepRecent] at h1
          exact hsep r.ts_epoch (List.mem_of_mem_drop h1) op (by simp)
        have hasc : ((pairRows db d c).map Run.ts_epoch).Pairwise (· < ·) := by
          rw [hmap]
          simp only [keepRecent]
          exact hpts.drop
        have hstep := insert_run_pair db d c op hp hts_lt hasc hid hlt
        have hmap' : (pairRows (applyIns db op) d c).map Run.ts_epoch =
            keepRecent N (pts ++ [op.ts_epoch]) := by
          rw [hstep, List.map_drop, List.map_append, hmap]
          have hlen : (pairRows db d c).length = (keepRecent N pts).length := by
            have := congrArg List.length hmap
            rwa [List.length_map] at this
          rw [hlen, hN]
          rw [show List.map Run.ts_epoch [newRow db op] = [op.ts_epoch] from rfl]
          exact keepRecent_snoc N pts op.ts_epoch
        have hInv' : DbInv N d c (applyIns db op) (pts ++ [op.ts_epoch]) :=
          ⟨hsize', hid', hlt', hmap', hfilt'⟩
        have hpts' : (pts ++ [op.ts_epoch]).Pairwise (· < ·) := by
          rw [List.pairwise_append]
          refine ⟨hpts, by simp, ?_⟩
          intro a ha b hb
          simp only [List.mem_singleton] at hb
          subst hb
          exact hsep a ha op (by simp)
        have hsep' : ∀ t ∈ pts ++ [op.ts_epoch], ∀ op' ∈ rest, t < op'.ts_epoch := by
          intro t ht op' hop'
          rcases List.mem_append.mp ht with h | h
          · exact hsep t h op' (List.mem_cons_of_mem _ hop')
          · simp only [List.mem_singleton] at h
            subst h
            exact hophd op' hop'
        have hfl' : ∀ op' ∈ rest, op'.is_filtered = false :=
          fun op' h => hfl op' (List.mem_cons_of_mem _ h)
        have hgoal := ih (applyIns db op) (pts ++ [op.ts_epoch]) hInv' hpts' hrest'
          hsep' hfl'
        have hopp : opPair d c op = true := by
          simp [opPair, hp.1, hp.2]
        simpa [List.filter_cons, hopp, List.append_assoc] using hgoal
      · have hstep := insert_run_pair_ne db d c op hp
        have hInv' : DbInv N d c (applyIns db op) pts :=
          ⟨hsize', hid', hlt', by rw [hstep]; exact hmap, hfilt'⟩
        have hsep' : ∀ t ∈ pts, ∀ op' ∈ rest, t < op'.ts_epoch :=
          fun t ht op' h => hsep t ht op' (List.mem_cons_of_mem _ h)
        have hfl' : ∀ op' ∈ rest, op'.is_filtered = false :=
          fun op' h => hfl op' (List.mem_cons_of_mem _ h)
        have hgoal := ih (applyIns db op) pts hInv' hpts hrest' hsep' hfl'
        have hopp : opPair d c op = false := by
          simp only [opPair, decide_eq_false_iff_not]
          exact hp
        simpa [List.filter_cons, hopp] using hgoal

/-- C1: for every (device, command) pair and every sequence of inserted runs
with strictly increasing timestamps (none marked filtered), after the inserts
the store holds at most N = history_size runs for the pair, their timestamps
are exactly the most recent ones inserted for the pair, and get_latest_runs
(with limit at least N) returns them newest first.  Instantiated at retention
size 3 with timestamps T1..T5 this gives exactly [T5, T4, T3]. -/
theorem C1_retention_invariant (N : Nat) (d c : String) (ops : List InsOp)
    (limit : Nat)
    (hts : List.Pairwise (fun a b : InsOp => a.ts_epoch < b.ts_epoch) ops)
    (hfl : ∀ op ∈ ops, op.is_filtered = false)
    (hlim : N ≤ limit) :
    (pairRows (runSeq N ops) d c).length ≤ N ∧
    (pairRows (runSeq N ops) d c).map Run.ts_epoch =
      keepRecent N ((ops.filter (opPair d c)).map InsOp.ts_epoch) ∧
    (get_latest_runs (runSeq N ops) d c limit false).map Run.ts_epoch =
      (keepRecent N ((ops.filter (opPair d c)).map InsOp.ts_epoch)).reverse := by
  have hInv0 : DbInv N d c (emptyDb N) [] := by
    refine ⟨rfl, by simp [emptyDb], by simp [emptyDb],
      by simp [emptyDb, pairRows, keepRecent], by simp [emptyDb, pairRows]⟩
  have h : DbInv N d c (runSeq N ops)
      ((ops.filter (opPair d c)).map InsOp.ts_epoch) := by
    have h0 := foldl_applyIns_inv N d c ops (emptyDb N) [] hInv0 (by simp) hts
      (by simp) hfl
    rw [List.nil_append] at h0
    exact h0
  obtain ⟨hN, hid, hlt, hmap, hfilt⟩ := h
  have hpts : ((ops.filter (opPair d c)).map InsOp.ts_epoch).Pairwise (· < ·) := by
    rw [List.pairwise_map]
    exact List.Pairwise.sublist (List.filter_sublist ops) hts
  have hlen : (pairRows (runSeq N ops) d c).length ≤ N := by
    have hc := congrArg List.length hmap
    rw [List.length_map] at hc
    rw [hc]
    simp only [keepRecent, List.length_drop]
    omega
  refine ⟨hlen, hmap, ?_⟩
  have hsel : (runSeq N ops).rows.filter
      (fun r => pairPred d c r && (false || !r.is_filtered)) =
      pairRows (runSeq N ops) d c := by
    apply List.filter_congr
    intro x hx
    cases hdc : pairPred d c x with
    | false => simp
    | true =>
        have hxp : x ∈ pairRows (runSeq N ops) d c := List.mem_filter.mpr ⟨hx, hdc⟩
        simp [hfilt x hxp]
  have hasc2 : ((pairRows (runSeq N ops) d c).map Run.ts_epoch).Pairwise (· < ·) := by
    rw [hmap]
    simp only [keepRecent]
    exact hpts.drop
  simp only [get_latest_runs]
  rw [hsel]
  rw [insertionSort_tsDesc_of_ascending _ hasc2]
  rw [List.take_of_length_le (by rw [List.length_reverse]; exact hlen.trans hlim)]
  rw [List.map_reverse, hmap]

/-- C1 witness: retention size 3, five inserts with timestamps 1..5 for one
pair, get_latest_runs returns exactly [5, 4, 3]. -/
theorem C1_retention_invariant_witness :
    List.Pairwise (fun a b : InsOp => a.ts_epoch < b.ts_epoch) c1ops ∧
    (∀ op ∈ c1ops, op.is_filtered = false) ∧ 3 ≤ 10 ∧
    (get_latest_runs (runSeq 3 c1ops) ("d") ("c") 10 false).map Run.ts_epoch =
      [5, 4, 3] := by
  refine ⟨by decide, by decide, by decide, ?_⟩
  have h := (C1_retention_invariant 3 ("d") ("c") c1ops 10 (by decide) (by decide)
    (by decide)).2.2
  rw [h]
  decide

/-- C2: evaluated at a publish over an existing snapshot with no I/O failure
anywhere, the publisher's observable trace passes through a state in which
the public path does not exist: the code unlinks current.sqlite3 and only
then renames the temp copy, so the replacement is not a single atomic rename
over the public path. -/
theorem C2_publish_deletes_public_path :
    (update_current_db (fun _ => none) ⟨1, none, some 0⟩).2.2.1 =
      [⟨1, some 1, some 0⟩, ⟨1, some 1, none⟩, ⟨1, none, some 1⟩] ∧
    ∃ st ∈ (update_current_db (fun _ => none) ⟨1, none, some 0⟩).2.2.1,
      st.current = none := by
  constructor
  · decide
  · exact ⟨⟨1, some 1, none⟩, by decide, rfl⟩

/-- C9 counterexample: with every attempt failing, the publisher sleeps
1s, 2s, 4s, 5s between its five attempts - four delays, not the five
(1s, 2s, 4s, 5s, 5s) the claim states. -/
theorem C9_counterexample_delays :
    (update_current_db (fun _ => some PublishFail.atCopy) ⟨1, none, some 0⟩).2.1 =
      [1, 2, 4, 5] ∧ ([1, 2, 4, 5] : List Nat) ≠ [1, 2, 4, 5, 5] := by
  decide

/-- C9 (amended): when every publish attempt fails (failing at the copy
step), the publisher makes exactly 5 attempts, sleeping 1s, 2s, 4s, 5s
between consecutive attempts, then returns normally without raising (the
embedded loop is a total function returning after the fifth failure), and
the previous snapshot is left in place. -/
theorem C9_publish_retry_backoff (fails : Nat → Option PublishFail) (fs : SnapFS)
    (h : ∀ a, fails a = some PublishFail.atCopy) :
    update_current_db fails fs = (fs, [1, 2, 4, 5], [], 5) := by
  have hf : fails = fun _ => some PublishFail.atCopy := funext h
  subst hf
  rfl

/-- One failing non-final iteration of the reconnect loop. -/
theorem connect_loop_step (connect : Nat → Except String Unit) (b : ℚ)
    (maxA f a : Nat) (e : String) (hc : connect a = Except.error e)
    (hlt : a < maxA - 1) :
    connect_loop connect b maxA (f + 1) a =
      (DevEvent.connectAttempt a :: DevEvent.sleep (b * 2 ^ a) ::
        (connect_loop connect b maxA f (a + 1)).1,
       (connect_loop connect b maxA f (a + 1)).2) := by
  simp only [connect_loop, hc, if_pos hlt]

/-- The failing final iteration of the reconnect loop. -/
theorem connect_loop_last (connect : Nat → Except String Unit) (b : ℚ)
    (maxA f a : Nat) (e : String) (hc : connect a = Except.error e)
    (hge : ¬ a < maxA - 1) :
    connect_loop connect b maxA (f + 1) a =
      ([DevEvent.connectAttempt a], Except.error (some e)) := by
  simp only [connect_loop, hc, if_neg hge]

/-- For a device that always fails to connect, the reconnect loop makes one
attempt per remaining iteration, sleeping `b * 2 ^ attempt` after each
failure except the last, and surfaces the last error. -/
theorem connect_loop_fail (connect : Nat → Except String Unit)
    (errs : Nat → String) (b : ℚ) (maxA : Nat)
    (hfail : ∀ a, connect a = Except.error (errs a)) :
    ∀ (fuel a : Nat), 1 ≤ fuel → a + fuel = maxA →
      connect_loop connect b maxA fuel a =
        ((List.range' a (fuel - 1)).flatMap
            (fun i => [DevEvent.connectAttempt i, DevEvent.sleep (b * 2 ^ i)]) ++
          [DevEvent.connectAttempt (maxA - 1)],
         Except.error (some (errs (maxA - 1)))) := by
  intro fuel
  induction fuel with
  | zero => intro a h1 _; omega
  | succ f ih =>
      intro a _ hsum
      cases f with
      | zero =>
          have ha : a = maxA - 1 := by omega
          rw [connect_loop_last connect b maxA 0 a (errs a) (hfail a) (by omega)]
          rw [ha]
          simp [List.range']
      | succ g =>
          have hlt : a < maxA - 1 := by omega
          have hrec := ih (a + 1) (by omega) (by omega)
          rw [connect_loop_step connect b maxA (g + 1) a (errs a) (hfail a) hlt]
          rw [hrec]
          simp [List.range', Nat.succ_sub_one]

/-- Each failed-attempt block contributes one connect attempt. -/
theorem countP_connect_blocks (b : ℚ) (l : List Nat) :
    ((l.flatMap
        (fun i => [DevEvent.connectAttempt i, DevEvent.sleep (b * 2 ^ i)])).countP
      isConnectAttempt) = l.length := by
  induction l with
  | nil => simp
  | cons a t ih => simp [List.countP_cons, isConnectAttempt, ih]

/-- Each failed-attempt block contributes one sleep of `b * 2 ^ i`. -/
theorem filterMap_sleep_blocks (b : ℚ) (l : List Nat) :
    ((l.flatMap
        (fun i => [DevEvent.connectAttempt i, DevEvent.sleep (b * 2 ^ i)])).filterMap
      sleepDur) = l.map (fun i => b * 2 ^ i) := by
  induction l with
  | nil => simp
  | cons a t ih => simp [sleepDur, ih]

/-- C4: for a device whose session always fails to connect (and no existing
session), `_ensure_connected` makes exactly maxReconnectAttempts connection
attempts, sleeps backoffBase * 2^attempt seconds between consecutive
attempts (backoffBase, 2*backoffBase, 4*backoffBase, ...), then raises
carrying the last underlying error, the `_connection` field remaining
absent. -/
theorem C4_connect_retry_backoff (connect : Nat → Except String Unit)
    (errs : Nat → String) (b : ℚ) (maxA : Nat) (hmax : 1 ≤ maxA)
    (hfail : ∀ a, connect a = Except.error (errs a)) :
    ((ensure_connected connect b maxA none false).1.countP isConnectAttempt
      = maxA) ∧
    ((ensure_connected connect b maxA none false).1.filterMap sleepDur =
      (List.range (maxA - 1)).map (fun i => b * 2 ^ i)) ∧
    ((ensure_connected connect b maxA none false).2.1 =
      Except.error (some (errs (maxA - 1)))) ∧
    ((ensure_connected connect b maxA none false).2.2 = none) := by
  have hloop := connect_loop_fail connect errs b maxA hfail maxA 0 hmax (by omega)
  have hev : ensure_connected connect b maxA none false =
      (((List.range' 0 (maxA - 1)).flatMap
          (fun i => [DevEvent.connectAttempt i, DevEvent.sleep (b * 2 ^ i)])) ++
        [DevEvent.connectAttempt (maxA - 1)],
       Except.error (some (errs (maxA - 1))), none) := by
    simp only [ensure_connected]
    rw [hloop]
    rfl
  rw [hev]
  refine ⟨?_, ?_, rfl, rfl⟩
  · rw [List.countP_append, countP_connect_blocks]
    simp [isConnectAttempt, List.countP_cons, List.length_range']
    omega
  · rw [List.filterMap_append, filterMap_sleep_blocks]
    simp [sleepDur, List.range_eq_range']

/-- C4 witness: three attempts against an always-failing device with backoff
base 1: sleeps of 1 and 2 seconds, the last error surfaced, no session. -/
theorem C4_connect_retry_backoff_witness :
    (1 ≤ 3) ∧
    (∀ a : Nat, (fun _ : Nat => (Except.error ("boom") : Except String Unit)) a =
      Except.error ((fun _ : Nat => ("boom")) a)) ∧
    ((ensure_connected (fun _ => Except.error ("boom")) 1 3 none false).1.countP
      isConnectAttempt = 3) ∧
    ((ensure_connected (fun _ => Except.error ("boom")) 1 3 none
      false).1.filterMap sleepDur = [1, 2]) ∧
    ((ensure_connected (fun _ => Except.error ("boom")) 1 3 none false).2.1 =
      Except.error (some ("boom"))) ∧
    ((ensure_connected (fun _ => Except.error ("boom")) 1 3 none false).2.2 =
      none) := by
  have h := C4_connect_retry_backoff (fun _ => Except.error ("boom"))
    (fun _ => ("boom")) 1 3 (by decide) (fun _ => rfl)
  refine ⟨by decide, fun _ => rfl, h.1, ?_, h.2.2.1, h.2.2.2⟩
  rw [h.2.1]
  norm_num [List.range_succ]

/-- C9 witness: the amended retry behaviour evaluated at a concrete always-
failing oracle and store state. -/
theorem C9_publish_retry_backoff_witness :
    (∀ a : Nat, (fun _ : Nat => some PublishFail.atCopy) a =
      some PublishFail.atCopy) ∧
    update_current_db (fun _ => some PublishFail.atCopy) ⟨7, none, some 3⟩ =
      (⟨7, none, some 3⟩, [1, 2, 4, 5], [], 5) :=
  ⟨fun _ => rfl,
   C9_publish_retry_backoff (fun _ => some PublishFail.atCopy) ⟨7, none, some 3⟩
     (fun _ => rfl)⟩

/-- Every unit of a batch performs exactly one `insert_run` call: the store's
AUTOINCREMENT counter advances once per unit, ok or failed. -/
theorem collect_batch_next_id (line_ex out_ex : String → List String)
    (max_lines : Nat) (units : List WorkUnit) (db : Database) :
    (collect_batch line_ex out_ex max_lines units db).next_id =
      db.next_id + units.length := by
  induction units generalizing db with
  | nil => simp [collect_batch]
  | cons u t ih =>
      have hstep : ∀ (db' : Database) (u' : WorkUnit),
          (execute_command (line_ex u'.command_text) (out_ex u'.command_text)
            max_lines u'.device_name u'.command_text u'.ts_epoch u'.duration_ms
            u'.outcome db').next_id = db'.next_id + 1 := by
        intro db' u'
        cases u'.outcome <;> rfl
      simp only [collect_batch, List.foldl_cons] at ih ⊢
      rw [ih, hstep]
      simp only [List.length_cons]
      omega

/-- C5: any failure of a unit of work (one device, one command) is caught
inside the unit and converted into a failed run record - ok false, carrying
the error message, empty output, zero line count - appended to the store,
while a success is appended through process_output as an ok record; the
unit functions are total (nothing is raised to the dispatcher or control
loop) and a batch appends exactly one record per unit, so it completes only
after every unit has either succeeded or failed. -/
theorem C5_unit_failures_contained (line_ex out_ex : String → List String)
    (max_lines : Nat) (units : List WorkUnit) (db : Database) :
    ((collect_batch line_ex out_ex max_lines units db).next_id =
      db.next_id + units.length) ∧
    (∀ (d c : String) (ts : Int) (dur : ℚ) (e : String) (db' : Database),
      execute_command (line_ex c) (out_ex c) max_lines d c ts dur
        (Except.error e) db' =
        insert_run db' d c ts ("") false (some e) (some dur) false false 0) ∧
    (∀ (d c : String) (ts : Int) (dur : ℚ) (out : String) (db' : Database),
      execute_command (line_ex c) (out_ex c) max_lines d c ts dur
        (Except.ok out) db' =
        insert_run db' d c ts
          (process_output out (line_ex c) (out_ex c) max_lines).1 true none
          (some dur) (process_output out (line_ex c) (out_ex c) max_lines).2.1
          (process_output out (line_ex c) (out_ex c) max_lines).2.2.1
          (process_output out (line_ex c) (out_ex c) max_lines).2.2.2) := by
  refine ⟨collect_batch_next_id line_ex out_ex max_lines units db, ?_, ?_⟩
  · intro d c ts dur e db'
    rfl
  · intro d c ts dur out db'
    rfl

/-- C6 counterexample: against a device whose connection attempts always
fail (backoff base 1, two reconnect attempts), the non-persistent execution
makes one bare connect attempt with no lock and no backoff, while the
persistent-mode execution followed by a disconnect retries under the lock:
the two behaviours differ. -/
theorem C6_counterexample :
    (execute_nonpersistent (Except.error ("boom")) (Except.ok ("x")) ("c")).1 =
      [DevEvent.connectAttempt 0] ∧
    (execute_persistent_then_disconnect (fun _ => Except.error ("boom"))
        (Except.ok ("x")) 1 2 ("c") none false).1 =
      [DevEvent.lockAcquire, DevEvent.connectAttempt 0,
       DevEvent.sleep (1 * 2 ^ 0), DevEvent.connectAttempt 1,
       DevEvent.lockRelease, DevEvent.disconnect] ∧
    (execute_nonpersistent (Except.error ("boom")) (Except.ok ("x")) ("c")).1 ≠
      (execute_persistent_then_disconnect (fun _ => Except.error ("boom"))
        (Except.ok ("x")) 1 2 ("c") none false).1 := by
  refine ⟨rfl, rfl, ?_⟩
  intro h
  have hlen := congrArg List.length h
  rw [show (execute_nonpersistent (Except.error ("boom")) (Except.ok ("x"))
      ("c")).1.length = 1 from rfl] at hlen
  rw [show (execute_persistent_then_disconnect (fun _ => Except.error ("boom"))
      (Except.ok ("x")) 1 2 ("c") none false).1.length = 6 from rfl] at hlen
  omega

/-- C6 (amended): with persistent connections disabled, executing a command
makes exactly one `ConnectHandler` call, acquires no per-device lock,
performs no backoff sleep, and disconnects exactly when both the connect
and the send succeed; failures surface to the per-unit error capture.  Only
this differs from persistent mode - it is not the persistent-mode execution
plus a disconnect. -/
theorem C6_nonpersistent_mode (connectOnce : Except String Unit)
    (sendR : Except String String) (cmd : String) :
    ((execute_nonpersistent connectOnce sendR cmd).1.countP isConnectAttempt
      = 1) ∧
    (DevEvent.lockAcquire ∉ (execute_nonpersistent connectOnce sendR cmd).1) ∧
    ((execute_nonpersistent connectOnce sendR cmd).1.filterMap sleepDur = []) ∧
    (DevEvent.disconnect ∈ (execute_nonpersistent connectOnce sendR cmd).1 ↔
      (∃ u, connectOnce = Except.ok u) ∧ (∃ out, sendR = Except.ok out)) := by
  cases connectOnce <;> cases sendR <;>
    simp [execute_nonpersistent, isConnectAttempt, sleepDur, List.countP_cons]

/-- One device pass emits only dispatches of this device and schedule
updates whose value is recomputed from `now` for commands of the list, and
rewrites the next-run map only to such recomputed values, touching only
commands of the list. -/
theorem device_pass_events (cronNext : String → ℚ → ℚ)
    (schedules : String → Option String) (interval now : ℚ) (device : String) :
    ∀ (cmds : List String) (m : String → Option ℚ),
      (∀ e ∈ (device_pass cronNext schedules interval now device cmds m).1,
        (∃ c, e = CEvent.dispatch device c) ∨
        (∃ c t, e = CEvent.schedUpdate c t ∧
          t = next_run_value cronNext schedules interval now c ∧ c ∈ cmds)) ∧
      (∀ c, (device_pass cronNext schedules interval now device cmds m).2 c = m c ∨
        (device_pass cronNext schedules interval now device cmds m).2 c =
          some (next_run_value cronNext schedules interval now c)) ∧
      (∀ c, c ∉ cmds →
        (device_pass cronNext schedules interval now device cmds m).2 c = m c) := by
  intro cmds
  induction cmds with
  | nil =>
      intro m
      refine ⟨by simp [device_pass], fun c => Or.inl rfl, fun c _ => rfl⟩
  | cons cmd cmds ih =>
      intro m
      by_cases hdue : now ≥ (m cmd).getD now
      · obtain ⟨ihe, ihm, ihn⟩ :=
          ih (setNextRun m cmd (next_run_value cronNext schedules interval now cmd))
        refine ⟨?_, ?_, ?_⟩
        · intro e he
          simp only [device_pass, if_pos hdue, List.mem_cons] at he
          rcases he with rfl | he
          · exact Or.inl ⟨cmd, rfl⟩
          rcases he with rfl | he
          · exact Or.inr ⟨cmd, _, rfl, rfl, by simp⟩
          · rcases ihe e he with h | ⟨c, t, rfl, hv, hc⟩
            · exact Or.inl h
            · exact Or.inr ⟨c, t, rfl, hv, by simp [hc]⟩
        · intro c
          simp only [device_pass, if_pos hdue]
          rcases ihm c with h | h
          · rw [h]
            by_cases hcc : c = cmd
            · subst hcc
              right
              simp [setNextRun]
            · left
              simp [setNextRun, hcc]
          · right
            exact h
        · intro c hc
          simp only [List.mem_cons, not_or] at hc
          simp only [device_pass, if_pos hdue]
          rw [ihn c hc.2]
          simp [setNextRun, hc.1]
      · obtain ⟨ihe, ihm, ihn⟩ := ih m
        refine ⟨?_, ?_, ?_⟩
        · intro e he
          simp only [device_pass, if_neg hdue] at he
          rcases ihe e he with h | ⟨c, t, rfl, hv, hc⟩
          · exact Or.inl h
          · exact Or.inr ⟨c, t, rfl, hv, by simp [hc]⟩
        · intro c
          simp only [device_pass, if_neg hdue]
          exact ihm c
        · intro c hc
          simp only [List.mem_cons, not_or] at hc
          simp only [device_pass, if_neg hdue]
          exact ihn c hc.2

/-- With distinct commands, one device pass updates a due command's next-run
entry exactly once (to the value recomputed from `now`) and a not-due
command's entry not at all. -/
theorem device_pass_counts (cronNext : String → ℚ → ℚ)
    (schedules : String → Option String) (interval now : ℚ) (device : String) :
    ∀ (cmds : List String) (m : String → Option ℚ), cmds.Nodup → ∀ c ∈ cmds,
      (now ≥ (m c).getD now →
        ((device_pass cronNext schedules interval now device cmds m).1.countP
            (isSchedUpdateFor c) = 1 ∧
         (device_pass cronNext schedules interval now device cmds m).2 c =
            some (next_run_value cronNext schedules interval now c))) ∧
      (¬ now ≥ (m c).getD now →
        ((device_pass cronNext schedules interval now device cmds m).1.countP
            (isSchedUpdateFor c) = 0 ∧
         (device_pass cronNext schedules interval now device cmds m).2 c = m c)) := by
  intro cmds
  induction cmds with
  | nil => intro m _ c hc; simp at hc
  | cons cmd cmds ih =>
      intro m hnd c hc
      rw [List.nodup_cons] at hnd
      have hupd0 : ∀ (m' : String → Option ℚ), c ∉ cmds →
          (device_pass cronNext schedules interval now device cmds m').1.countP
            (isSchedUpdateFor c) = 0 := by
        intro m' hcn
        rw [List.countP_eq_zero]
        intro e he
        rcases (device_pass_events cronNext schedules interval now device cmds
          m').1 e he with ⟨c', rfl⟩ | ⟨c', t, rfl, _, hc'⟩
        · simp [isSchedUpdateFor]
        · simp only [isSchedUpdateFor]
          have : c' ≠ c := fun h => hcn (h ▸ hc')
          simp [this]
      rcases List.mem_cons.mp hc with rfl | hcm
      · -- the command at the head of the list
        by_cases hdue : now ≥ (m c).getD now
        · refine ⟨fun _ => ?_, fun hnd2 => absurd hdue hnd2⟩
          constructor
          · simp only [device_pass, if_pos hdue, List.countP_cons]
            rw [hupd0 _ hnd.1]
            simp [isSchedUpdateFor]
          · simp only [device_pass, if_pos hdue]
            rw [(device_pass_events cronNext schedules interval now device cmds
              _).2.2 c hnd.1]
            simp [setNextRun]
        · refine ⟨fun h => absurd h hdue, fun _ => ?_⟩
          constructor
          · simp only [device_pass, if_neg hdue]
            exact hupd0 m hnd.1
          · simp only [device_pass, if_neg hdue]
            exact (device_pass_events cronNext schedules interval now device cmds
              m).2.2 c hnd.1
      · -- a command further down the list
        have hne : c ≠ cmd := fun h => hnd.1 (h ▸ hcm)
        by_cases hdue : now ≥ (m cmd).getD now
        · have hm' : setNextRun m cmd
              (next_run_value cronNext schedules interval now cmd) c = m c := by
            simp [setNextRun, hne]
          have := ih (setNextRun m cmd
            (next_run_value cronNext schedules interval now cmd)) hnd.2 c hcm
          rw [hm'] at this
          obtain ⟨h1, h2⟩ := this
          refine ⟨fun hd => ?_, fun hd => ?_⟩
          · obtain ⟨hcnt, hmap⟩ := h1 hd
            constructor
            · simp only [device_pass, if_pos hdue, List.countP_cons]
              rw [hcnt]
              simp [isSchedUpdateFor, Ne.symm hne]
            · simp only [device_pass, if_pos hdue]
              exact hmap
          · obtain ⟨hcnt, hmap⟩ := h2 hd
            constructor
            · simp only [device_pass, if_pos hdue, List.countP_cons]
              rw [hcnt]
              simp [isSchedUpdateFor, Ne.symm hne]
            · simp only [device_pass, if_pos hdue]
              rw [hmap]
        · have := ih m hnd.2 c hcm
          obtain ⟨h1, h2⟩ := this
          refine ⟨fun hd => ?_, fun hd => ?_⟩
          · obtain ⟨hcnt, hmap⟩ := h1 hd
            exact ⟨by simp only [device_pass, if_neg hdue]; exact hcnt,
              by simp only [device_pass, if_neg hdue]; exact hmap⟩
          · obtain ⟨hcnt, hmap⟩ := h2 hd
            exact ⟨by simp only [device_pass, if_neg hdue]; exact hcnt,
              by simp only [device_pass, if_neg hdue]; exact hmap⟩

/-- A pass in which no command is due emits nothing and changes nothing. -/
theorem device_pass_nodue (cronNext : String → ℚ → ℚ)
    (schedules : String → Option String) (interval now : ℚ) (device : String) :
    ∀ (cmds : List String) (m : String → Option ℚ),
      (∀ c ∈ cmds, ¬ now ≥ (m c).getD now) →
      device_pass cronNext schedules interval now device cmds m = ([], m) := by
  intro cmds
  induction cmds with
  | nil => intro m _; rfl
  | cons cmd cmds ih =>
      intro m h
      simp only [device_pass, if_neg (h cmd (by simp))]
      exact ih m (fun c hc => h c (by simp [hc]))

/-- Once nothing is due, the remaining device passes emit nothing. -/
theorem all_devices_pass_nodue (cronNext : String → ℚ → ℚ)
    (schedules : String → Option String) (interval now : ℚ) :
    ∀ (devs cmds : List String) (m : String → Option ℚ),
      (∀ c ∈ cmds, ¬ now ≥ (m c).getD now) →
      all_devices_pass cronNext schedules interval now devs cmds m = ([], m) := by
  intro devs
  induction devs with
  | nil => intro cmds m _; rfl
  | cons dev devs ih =>
      intro cmds m h
      simp only [all_devices_pass]
      rw [device_pass_nodue cronNext schedules interval now dev cmds m h]
      rw [ih cmds m h]
      rfl

/-- The recomputed next-run value lies strictly after `now` when croniter
returns strictly later occurrences and the interval is positive. -/
theorem next_run_value_gt (cronNext : String → ℚ → ℚ)
    (schedules : String → Option String) (interval now : ℚ)
    (hcron : ∀ s t, t < cronNext s t) (hint : 0 < interval) (c : String) :
    now < next_run_value cronNext schedules interval now c := by
  rcases hs : schedules c with _ | s
  · simp only [next_run_value, hs]
    linarith
  · simp only [next_run_value, hs]
    exact hcron s now

/-- The whole dispatch double loop: only the first device of a nonempty
table dispatches a due command (its next-run entry, rewritten at dispatch
time, is already past `now` when later devices are examined); every
schedule update carries the value recomputed from `now`, and a due command
is updated exactly once. -/
theorem all_devices_pass_spec (cronNext : String → ℚ → ℚ)
    (schedules : String → Option String) (interval now : ℚ)
    (hcron : ∀ s t, t < cronNext s t) (hint : 0 < interval) :
    ∀ (devs cmds : List String) (m : String → Option ℚ), cmds.Nodup →
      (∀ e ∈ (all_devices_pass cronNext schedules interval now devs cmds m).1,
        (∃ d c, e = CEvent.dispatch d c) ∨
        (∃ c t, e = CEvent.schedUpdate c t ∧
          t = next_run_value cronNext schedules interval now c)) ∧
      (∀ c ∈ cmds,
        (all_devices_pass cronNext schedules interval now devs cmds m).1.countP
          (isSchedUpdateFor c) =
        if devs ≠ [] ∧ now ≥ (m c).getD now then 1 else 0) := by
  intro devs cmds m hnd
  cases devs with
  | nil =>
      refine ⟨by simp [all_devices_pass], ?_⟩
      intro c hc
      simp [all_devices_pass]
  | cons dev devs =>
      have hq : ∀ c ∈ cmds,
          ¬ now ≥ ((device_pass cronNext schedules interval now dev cmds m).2
            c).getD now := by
        intro c hc
        have hcounts := device_pass_counts cronNext schedules interval now dev
          cmds m hnd c hc
        by_cases hdue : now ≥ (m c).getD now
        · obtain ⟨_, hmap⟩ := hcounts.1 hdue
          rw [hmap]
          simp only [Option.getD_some, ge_iff_le, not_le]
          exact next_run_value_gt cronNext schedules interval now hcron hint c
        · obtain ⟨_, hmap⟩ := hcounts.2 hdue
          rw [hmap]
          exact hdue
      have hrest := all_devices_pass_nodue cronNext schedules interval now devs
        cmds (device_pass cronNext schedules interval now dev cmds m).2 hq
      refine ⟨?_, ?_⟩
      · intro e he
        simp only [all_devices_pass] at he
        rw [hrest] at he
        simp only [List.append_nil] at he
        rcases (device_pass_events cronNext schedules interval now dev cmds
          m).1 e he with ⟨c, rfl⟩ | ⟨c, t, rfl, hv, _⟩
        · exact Or.inl ⟨dev, c, rfl⟩
        · exact Or.inr ⟨c, t, rfl, hv⟩
      · intro c hc
        simp only [all_devices_pass]
        rw [hrest]
        simp only [List.append_nil]
        have hcounts := device_pass_counts cronNext schedules interval now dev
          cmds m hnd c hc
        by_cases hdue : now ≥ (m c).getD now
        · rw [(hcounts.1 hdue).1]
          simp [hdue]
        · rw [(hcounts.2 hdue).1]
          simp [hdue]

/-- C7 (amended): for every command that runs in a batch, nextRunAt is
rewritten exactly once, at dispatch time - while the batch is being
enqueued, before it completes - and the new value is recomputed from the
wall-clock time at the start of the batch (cron next occurrence after now,
or now + interval), never from the previous nextRunAt; the Snapshot
Publisher is invoked exactly once per batch that dispatched at least one
unit (not once per unit), after the batch has been awaited. -/
theorem C7_dispatch_updates_and_single_publish (cronNext : String → ℚ → ℚ)
    (schedules : String → Option String) (interval now : ℚ)
    (devices commands : List String) (m : String → Option ℚ)
    (hcron : ∀ s t, t < cronNext s t) (hint : 0 < interval)
    (hnodup : commands.Nodup) :
    (∀ c t, CEvent.schedUpdate c t ∈
        (collect_commands cronNext schedules interval now devices commands m).1 →
      t = next_run_value cronNext schedules interval now c) ∧
    (∀ c ∈ commands,
      (collect_commands cronNext schedules interval now devices commands
        m).1.countP (isSchedUpdateFor c) =
      if devices ≠ [] ∧ now ≥ (m c).getD now then 1 else 0) ∧
    ((collect_commands cronNext schedules interval now devices commands
        m).1.countP isPublishEv =
      if 0 < (collect_commands cronNext schedules interval now devices commands
        m).1.countP isDispatchEv then 1 else 0) ∧
    (∀ (i j : Nat) (c : String) (t : ℚ),
      (collect_commands cronNext schedules interval now devices commands
        m).1.get? i = some CEvent.publish →
      (collect_commands cronNext schedules interval now devices commands
        m).1.get? j = some (CEvent.schedUpdate c t) → j < i) := by
  obtain ⟨hA, hB⟩ := all_devices_pass_spec cronNext schedules interval now hcron
    hint devices commands m hnodup
  have hApub : ∀ e ∈ (all_devices_pass cronNext schedules interval now devices
      commands m).1, ¬ isPublishEv e = true := by
    intro e he
    rcases hA e he with ⟨d, c, rfl⟩ | ⟨c, t, rfl, _⟩ <;> simp [isPublishEv]
  have hApubcnt : (all_devices_pass cronNext schedules interval now devices
      commands m).1.countP isPublishEv = 0 := List.countP_eq_zero.mpr hApub
  by_cases hdisp : 0 < (all_devices_pass cronNext schedules interval now devices
      commands m).1.countP isDispatchEv
  · have hev : (collect_commands cronNext schedules interval now devices
        commands m).1 =
        (all_devices_pass cronNext schedules interval now devices commands m).1
          ++ [CEvent.batchAwait, CEvent.publish] := by
      simp only [collect_commands]
      rw [if_pos hdisp]
    refine ⟨?_, ?_, ?_, ?_⟩
    · intro c t hmem
      rw [hev] at hmem
      rcases List.mem_append.mp hmem with h | h
      · rcases hA _ h with ⟨d, c', heq⟩ | ⟨c', t', heq, hv⟩
        · exact absurd heq (by simp)
        · obtain ⟨rfl, rfl⟩ : c' = c ∧ t' = t := by
            constructor <;> injection heq.symm
          exact hv
      · simp at h
    · intro c hc
      rw [hev, List.countP_append]
      rw [hB c hc]
      simp [isSchedUpdateFor]
    · rw [hev, List.countP_append, List.countP_append, hApubcnt]
      have h1 : ([CEvent.batchAwait, CEvent.publish].countP isPublishEv) = 1 := rfl
      have h2 : ([CEvent.batchAwait, CEvent.publish].countP isDispatchEv) = 0 := rfl
      rw [h1, h2]
      simp [hdisp]
    · intro i j c t hpi hpj
      rw [hev] at hpi hpj
      have hjA : j < (all_devices_pass cronNext schedules interval now devices
          commands m).1.length := by
        by_contra hge
        push_neg at hge
        rw [List.get?_append_right hge] at hpj
        have := List.get?_mem hpj
        simp at this
      have hiA : (all_devices_pass cronNext schedules interval now devices
          commands m).1.length ≤ i := by
        by_contra hlt
        push_neg at hlt
        rw [List.get?_append hlt] at hpi
        have hmem := List.get?_mem hpi
        have := hApub _ hmem
        simp [isPublishEv] at this
      omega
  · have hev : (collect_commands cronNext schedules interval now devices
        commands m).1 =
        (all_devices_pass cronNext schedules interval now devices commands
          m).1 := by
      simp only [collect_commands]
      rw [if_neg hdisp]
    refine ⟨?_, ?_, ?_, ?_⟩
    · intro c t hmem
      rw [hev] at hmem
      rcases hA _ hmem with ⟨d, c', heq⟩ | ⟨c', t', heq, hv⟩
      · exact absurd heq (by simp)
      · obtain ⟨rfl, rfl⟩ : c' = c ∧ t' = t := by
          constructor <;> injection heq.symm
        exact hv
    · intro c hc
      rw [hev]
      exact hB c hc
    · rw [hev, hApubcnt]
      simp [hdisp]
    · intro i j c t hpi hpj
      rw [hev] at hpi
      have hmem := List.get?_mem hpi
      have := hApub _ hmem
      simp [isPublishEv] at this

/-- C7 counterexample: one device, one due interval command - the schedule
update is emitted at dispatch time, before the batch is awaited, refuting
'the Schedule Table is updated after the batch completes'. -/
theorem C7_counterexample :
    (collect_commands (fun _ t => t) (fun _ => none) 5 0 [("d1")] [("c1")]
        (fun _ => some 0)).1 =
      [CEvent.dispatch ("d1") ("c1"), CEvent.schedUpdate ("c1") (0 + 5),
       CEvent.batchAwait, CEvent.publish] ∧
    ¬ (∀ (j i : Nat) (c : String) (t : ℚ),
        (collect_commands (fun _ t => t) (fun _ => none) 5 0 [("d1")] [("c1")]
          (fun _ => some 0)).1.get? j = some (CEvent.schedUpdate c t) →
        (collect_commands (fun _ t => t) (fun _ => none) 5 0 [("d1")] [("c1")]
          (fun _ => some 0)).1.get? i = some CEvent.batchAwait → i < j) := by
  refine ⟨rfl, ?_⟩
  intro hall
  have := hall 1 2 ("c1") (0 + 5) rfl rfl
  omega

/-- C7 witness: one device, one due interval command, a croniter oracle
returning strictly later occurrences: the theorem applies and the snapshot
is published once for the batch. -/
theorem C7_dispatch_updates_and_single_publish_witness :
    (∀ (s : String) (t : ℚ), t < (fun (_ : String) (t : ℚ) => t + 1) s t) ∧
    ((0 : ℚ) < 5) ∧ ([("c1")] : List String).Nodup ∧
    ((collect_commands (fun _ t => t + 1) (fun _ => none) 5 0 [("d1")] [("c1")]
        (fun _ => some 0)).1.countP isPublishEv =
      if 0 < (collect_commands (fun _ t => t + 1) (fun _ => none) 5 0 [("d1")]
        [("c1")] (fun _ => some 0)).1.countP isDispatchEv then 1 else 0) := by
  refine ⟨fun s t => lt_add_one t, by norm_num, by simp, ?_⟩
  exact (C7_dispatch_updates_and_single_publish (fun _ t => t + 1)
    (fun _ => none) 5 0 [("d1")] [("c1")] (fun _ => some 0)
    (fun s t => lt_add_one t) (by norm_num) (by simp)).2.2.1

/-- Commands not in the list are left untouched by schedule
initialization. -/
theorem init_fold_untouched (cronNext : String → ℚ → ℚ)
    (schedules : String → Option String) (now : ℚ) :
    ∀ (cmds : List String) (m : String → Option ℚ) (c : String), c ∉ cmds →
      (cmds.foldl
        (fun m cmd =>
          match schedules cmd with
          | some s => setNextRun m cmd (cronNext s now)
          | none => setNextRun m cmd now) m) c = m c := by
  intro cmds
  induction cmds with
  | nil => intro m c _; rfl
  | cons cmd cmds ih =>
      intro m c hc
      simp only [List.mem_cons, not_or] at hc
      rw [List.foldl_cons]
      rw [ih _ c hc.2]
      cases schedules cmd <;> simp [setNextRun, hc.1]

/-- Every listed command's initialized entry is determined by its schedule
and the startup time alone. -/
theorem init_fold_value (cronNext : String → ℚ → ℚ)
    (schedules : String → Option String) (now : ℚ) :
    ∀ (cmds : List String) (m : String → Option ℚ) (c : String), c ∈ cmds →
      (cmds.foldl
        (fun m cmd =>
          match schedules cmd with
          | some s => setNextRun m cmd (cronNext s now)
          | none => setNextRun m cmd now) m) c =
      some (match schedules c with
            | some s => cronNext s now
            | none => now) := by
  intro cmds
  induction cmds with
  | nil => intro m c hc; simp at hc
  | cons cmd cmds ih =>
      intro m c hc
      rw [List.foldl_cons]
      by_cases hmem : c ∈ cmds
      · exact ih _ c hmem
      · have hceq : c = cmd := by
          rcases List.mem_cons.mp hc with h | h
          · exact h
          · exact absurd h hmem
        subst hceq
        rw [init_fold_untouched cronNext schedules now cmds _ c hmem]
        rcases hs : schedules c with _ | s <;> simp [hs, setNextRun]

/-- C8: at startup every interval-based command (no cron schedule) has
nextRunAt initialized to the current time - so it is due immediately under
the loop's due test - and every cron-scheduled command to the cron
expression's next occurrence strictly after startup time. -/
theorem C8_initial_next_run (cronNext : String → ℚ → ℚ)
    (schedules : String → Option String) (now : ℚ) (commands : List String)
    (hcron : ∀ s t, t < cronNext s t) :
    ∀ c ∈ commands,
      (schedules c = none →
        initialize_command_schedules cronNext schedules now commands c =
          some now ∧
        now ≥ ((initialize_command_schedules cronNext schedules now commands
          c).getD now)) ∧
      (∀ s, schedules c = some s →
        initialize_command_schedules cronNext schedules now commands c =
          some (cronNext s now) ∧ now < cronNext s now) := by
  intro c hc
  have hval := init_fold_value cronNext schedules now commands (fun _ => none)
    c hc
  constructor
  · intro hnone
    have h1 : initialize_command_schedules cronNext schedules now commands c =
        some now := by
      simp only [initialize_command_schedules]
      rw [hval, hnone]
    exact ⟨h1, by rw [h1]; simp⟩
  · intro s hs
    have h1 : initialize_command_schedules cronNext schedules now commands c =
        some (cronNext s now) := by
      simp only [initialize_command_schedules]
      rw [hval, hs]
    exact ⟨h1, hcron s now⟩

/-- C8 witness: two commands, one interval-based, one cron-scheduled, with a
croniter oracle returning the next strictly-later occurrence. -/
theorem C8_initial_next_run_witness :
    (∀ (s : String) (t : ℚ), t < (fun (_ : String) (t : ℚ) => t + 1) s t) ∧
    (("a") ∈ ([("a"), ("b")] : List String)) ∧
    initialize_command_schedules (fun _ t => t + 1)
      (fun c => if c = ("b") then some ("*/5 * * * *") else none) 7
      [("a"), ("b")] ("a") = some 7 ∧
    initialize_command_schedules (fun _ t => t + 1)
      (fun c => if c = ("b") then some ("*/5 * * * *") else none) 7
      [("a"), ("b")] ("b") = some 8 := by
  refine ⟨fun s t => lt_add_one t, by simp, ?_, ?_⟩
  · exact ((C8_initial_next_run (fun _ t => t + 1)
      (fun c => if c = ("b") then some ("*/5 * * * *") else none) 7
      [("a"), ("b")] (fun s t => lt_add_one t) ("a") (by simp)).1
        (by decide)).1
  · have h := ((C8_initial_next_run (fun _ t => t + 1)
      (fun c => if c = ("b") then some ("*/5 * * * *") else none) 7
      [("a"), ("b")] (fun s t => lt_add_one t) ("b") (by simp)).2
        ("*/5 * * * *") (by decide)).1
    rw [h]
    norm_num

/-- C3: the engine polls the control state each tick; a tick seen paused
(and not shut down) dispatches no command batch while probing continues and
the loop does not exit; the first tick seen requesting shutdown ends the
loop - the prior ticks ran normally, the final tick closes all device
sessions, and nothing runs afterwards. -/
theorem C3_pause_skips_shutdown_exits :
    ∀ (files : List ControlFile) (i : Nat) (f : ControlFile),
      files.get? i = some f →
      (∀ (j : Nat) (fj : ControlFile), j < i → files.get? j = some fj →
        (read_control_state fj).shutdown_requested = false) →
      (((read_control_state f).shutdown_requested = false →
        (read_control_state f).commands_paused = true →
        (engine_run files).get? i = some [EngAction.probe] ∧
        i + 1 ≤ (engine_run files).length) ∧
       ((read_control_state f).shutdown_requested = true →
        engine_run files =
          (files.take i).map (fun fj => (engine_tick fj).1) ++
            [[EngAction.closeSessions]])) := by
  intro files
  induction files with
  | nil => intro i f hget _; simp at hget
  | cons f0 fs ih =>
      intro i f hget hno
      cases i with
      | zero =>
          simp only [List.get?] at hget
          injection hget with hf
          constructor
          · intro hsd hp
            rw [← hf] at hsd hp
            have ht : engine_tick f0 = ([EngAction.probe], true) := by
              simp [engine_tick, hsd, hp]
            simp [engine_run, ht]
          · intro hsd
            rw [← hf] at hsd
            have ht : engine_tick f0 = ([EngAction.closeSessions], false) := by
              simp [engine_tick, hsd]
            simp [engine_run, ht]
      | succ i =>
          simp only [List.get?] at hget
          have hf0 : (read_control_state f0).shutdown_requested = false :=
            hno 0 f0 (by omega) rfl
          have hcont : (engine_tick f0).2 = true := by
            simp only [engine_tick, hf0]
            by_cases hp : (read_control_state f0).commands_paused <;> simp [hp]
          have hrun : engine_run (f0 :: fs) =
              (engine_tick f0).1 :: engine_run fs := by
            simp only [engine_run]
            rw [if_pos hcont]
          have hih := ih i f hget
            (fun j fj hj hgj => hno (j + 1) fj (by omega) hgj)
          constructor
          · intro hsd hp
            obtain ⟨h1, h2⟩ := hih.1 hsd hp
            rw [hrun]
            refine ⟨by simpa using h1, by simp; omega⟩
          · intro hsd
            have h1 := hih.2 hsd
            rw [hrun, h1]
            rw [List.take_succ_cons, List.map_cons, List.cons_append]

/-- C3 witness: a paused tick followed by a shutdown tick: the paused tick
only probes, the shutdown tick closes the sessions and ends the run. -/
theorem C3_pause_skips_shutdown_exits_witness :
    ((([ControlFile.valid ⟨some true, some false, none⟩,
        ControlFile.valid ⟨none, some true, none⟩] : List ControlFile).get? 1) =
      some (ControlFile.valid ⟨none, some true, none⟩)) ∧
    engine_run [ControlFile.valid ⟨some true, some false, none⟩,
        ControlFile.valid ⟨none, some true, none⟩] =
      [[EngAction.probe], [EngAction.closeSessions]] := by
  refine ⟨rfl, ?_⟩
  have h := (C3_pause_skips_shutdown_exits
    [ControlFile.valid ⟨some true, some false, none⟩,
     ControlFile.valid ⟨none, some true, none⟩] 1
    (ControlFile.valid ⟨none, some true, none⟩) rfl
    (by intro j fj hj hgj
        interval_cases j
        · simp only [List.get?] at hgj
          injection hgj with h
          subst h
          rfl)).2 rfl
  rw [h]
  rfl

end NwWatch
